import Mathlib

/-!
# zee: handler pipeline, cursor and route groups

A verification development over `context.go` and `gee.go`.

* `Context.Next`, `Context.Fail` and the closure built by
  `RouterGroup.createStaticHandler` are embedded as an interpreter over an
  explicit `Context` state. A Go handler is a closure `func(c *Context)`;
  here it is a value of `HandlerFunc`, whose body is a list of statements
  (`Stmt`): observable work, `c.Next()`, `c.Fail(code, err)`.
* `Engine`, `RouterGroup` and their setup operations (`New`, `Group`, `Use`,
  `NoRoute`, `NoMethod`, `combineHandlers`, `handleMidderwares`) are embedded
  over a `Store` that holds the `RouterGroup` objects by address, because the
  source shares them through pointers.
* The cursor `Context.index` is an `int8` in the source. `toCursor` makes the
  wrap explicit; `CursorModel.unbounded` reads the same code without overflow.
-/

namespace Gee

/-! ## Handlers and the request context -/

/-- What a handler body can do to the context, one statement at a time. -/
inductive Stmt where
  /-- Handler-local work with an observable effect, tagged. -/
  | emit (tag : String)
  /-- The call `c.Next()`. -/
  | next
  /-- The call `c.Fail(code, err)`. -/
  | fail (code : Int) (err : String)
deriving DecidableEq

/-- A pointer to a `RouterGroup` object: its position in `Store.objs`. -/
abbrev Ptr := Nat

/-- `type HandlerFunc func(c *Context)`: either a handler written as a
statement list, or the closure returned by `createStaticHandler`, which
captures the group pointer and the file system (the names it can open). -/
inductive HandlerFunc where
  | code (body : List Stmt)
  | staticHandler (group : Ptr) (fs : List String)
deriving DecidableEq

/-- What a request leaves behind, in order. `invoke i` is recorded by the
loop of `Next` each time it calls `c.handlers[i]`; the others are writes to
the response. -/
inductive Event where
  | invoke (i : Int)
  | emit (tag : String)
  | json (code : Int) (message : String)
  | writeHeader (code : Int)
  | serveFile (file : String)
deriving DecidableEq

/-- `type Context struct`: the fields the pipeline reads and writes. `Writer`
is the list of events written so far. -/
structure Context where
  Writer : List Event
  Path : String
  Method : String
  Params : List (String × String)
  StatusCode : Int
  handlers : List HandlerFunc
  index : Int
deriving DecidableEq

/-- Why a run stopped without returning: a Go runtime panic (index out of
range, nil pointer), or the interpreter's step budget ran out. -/
inductive Fault where
  | indexOutOfRange
  | nilPointer
  | outOfFuel
deriving DecidableEq

/-- The result of running code on a context: it returned, or it stopped on a
fault; either way the context reached is kept. -/
inductive Outcome where
  | done (c : Context)
  | fault (f : Fault) (c : Context)
deriving DecidableEq

/-- The context an outcome carries. -/
def Outcome.ctx : Outcome → Context
  | .done c => c
  | .fault _ c => c

/-! ## Route groups and the engine -/

/-- `type RouterGroup struct`. The `router` pointer is left out (the trie is
not part of these sources). `engine` says whether the back-pointer is set:
a program has one `Engine`. -/
structure RouterGroup where
  Handlers : List HandlerFunc
  pfx : String
  middlewares : List HandlerFunc
  engine : Bool
deriving DecidableEq

/-- `type Engine struct`: the embedded `*RouterGroup` and `groups` are
pointers. -/
structure Engine where
  RouterGroup : Ptr
  groups : List Ptr
  noRoute : List HandlerFunc
  noMethod : List HandlerFunc
  allNoRoute : List HandlerFunc
  allNoMethod : List HandlerFunc
deriving DecidableEq

/-- The program state at setup time: every allocated `RouterGroup`, by
address, and the engine. -/
structure Store where
  objs : List RouterGroup
  engine : Engine
deriving DecidableEq

/-! ## The cursor -/

/-- How the arithmetic on `Context.index` is read. -/
inductive CursorModel where
  /-- The source: `index int8`, wrapping. -/
  | int8
  /-- The same code with the cursor taken as an integer that never overflows. -/
  | unbounded
deriving DecidableEq

/-- The value stored in the cursor when the integer `z` is assigned to it:
Go's conversion to `int8` wraps modulo `2^8` into `-128..127`. -/
def toCursor : CursorModel → Int → Int
  | .int8, z => (z + 128) % 256 - 128
  | .unbounded, z => z

/-- `math.MaxInt8`. -/
def MaxInt8 : Nat := 2 ^ 7 - 1

/-- `const abortIndex int8 = math.MaxInt8 >> 1`. -/
def abortIndex : Nat := MaxInt8 >>> 1

/-- `c.index++`. -/
def Context.incr (m : CursorModel) (c : Context) : Context :=
  { c with index := toCursor m (c.index + 1) }

/-- A write to the response. -/
def Context.write (c : Context) (e : Event) : Context :=
  { c with Writer := c.Writer ++ [e] }

/-- `c.handlers[c.index]`: Go panics on a negative or too large index. -/
def Context.handlerAt (c : Context) : Option HandlerFunc :=
  if 0 ≤ c.index then c.handlers.get? c.index.toNat else none

/-- `func newContext(w, req)`: path and method of the request, cursor `-1`. -/
def newContext (path method : String) : Context :=
  { Writer := [], Path := path, Method := method, Params := [], StatusCode := 0,
    handlers := [], index := -1 }

/-- `func (c *Context) Param(key string) string`: the value or `""`. -/
def Context.Param (c : Context) (key : String) : String :=
  match c.Params.lookup key with
  | some v => v
  | none => ""

/-- `func (c *Context) Status(code int)`. -/
def Context.Status (c : Context) (code : Int) : Context :=
  { c with StatusCode := code }.write (.writeHeader code)

/-- `func (c *Context) JSON(code, obj)` for the object `H{"message": err}`:
the status is set and the body is written (the header writes of `Status` and
the body are one `json` event). -/
def Context.JSON (c : Context) (code : Int) (message : String) : Context :=
  { c with StatusCode := code }.write (.json code message)

/-- `func (c *Context) Fail(code int, err string)`. -/
def Context.Fail (m : CursorModel) (c : Context) (code : Int) (err : String) : Context :=
  { c with index := toCursor m c.handlers.length }.JSON code err

/-! ## Running handlers -/

/-- The body of a handler written as statements, run in order. `nextFn` is
the method `c.Next` the handler calls. -/
def execBody (m : CursorModel) (nextFn : Context → Outcome) : List Stmt → Context → Outcome
  | [], c => .done c
  | .emit tag :: rest, c => execBody m nextFn rest (c.write (.emit tag))
  | .next :: rest, c =>
    match nextFn c with
    | .done c1 => execBody m nextFn rest c1
    | .fault f c1 => .fault f c1
  | .fail code err :: rest, c => execBody m nextFn rest (c.Fail m code err)

/-- The closure returned by `createStaticHandler`, applied to `ctx`: when the
file cannot be opened, `ctx.Status(404)`, `ctx.handlers = group.engine.noRoute`,
`ctx.index = -1`, return; else the file server writes the file. -/
def runStatic (st : Store) (group : Ptr) (fs : List String) (ctx : Context) : Outcome :=
  let file := ctx.Param "filepath"
  if file ∈ fs then
    .done (ctx.write (.serveFile file))
  else
    let ctx1 := ctx.Status 404
    match st.objs.get? group with
    | none => .fault .nilPointer ctx1
    | some g =>
      if g.engine then
        .done { ctx1 with handlers := st.engine.noRoute, index := -1 }
      else .fault .nilPointer ctx1

/-- The call `h(c)` of a handler. -/
def callHandler (m : CursorModel) (st : Store) (nextFn : Context → Outcome) :
    HandlerFunc → Context → Outcome
  | .code body, c => execBody m nextFn body c
  | .staticHandler group fs, c => runStatic st group fs c

/-- The `for` statement of `Context.Next`, entered at its condition:
`for ; c.index < int8(len(c.handlers)); c.index++ { c.handlers[c.index](c); c.index++ }`.
One unit of fuel is spent per evaluation of the condition. -/
def nextLoop (m : CursorModel) (st : Store) : Nat → Context → Outcome
  | 0, c => .fault .outOfFuel c
  | fuel + 1, c =>
    if c.index < toCursor m c.handlers.length then
      match c.handlerAt with
      | none => .fault .indexOutOfRange c
      | some h =>
        match callHandler m st (fun c1 => nextLoop m st fuel (c1.incr m)) h
            (c.write (.invoke c.index)) with
        | .done c1 => nextLoop m st fuel ((c1.incr m).incr m)
        | .fault f c1 => .fault f c1
    else .done c

/-- `func (c *Context) Next()`. -/
def Context.Next (m : CursorModel) (st : Store) (fuel : Nat) (c : Context) : Outcome :=
  nextLoop m st fuel (c.incr m)

/-! ## Setup: groups, middleware, fallback chains

A setup operation either returns or panics; a panic carries its message. -/

/-- Dereferencing a `*RouterGroup`. -/
def Store.deref (st : Store) (p : Ptr) : Except String RouterGroup :=
  match st.objs.get? p with
  | some g => .ok g
  | none => .error "nil pointer dereference"

/-- `func New() *Engine`: one group, the root, with the empty prefix and the
engine back-pointer set; `groups` holds the root only. -/
def New : Store :=
  { objs := [{ Handlers := [], pfx := "", middlewares := [], engine := true }],
    engine := { RouterGroup := 0, groups := [0], noRoute := [], noMethod := [],
                allNoRoute := [], allNoMethod := [] } }

/-- `func (group *RouterGroup) Group(prefix string) *RouterGroup`: allocates
`&RouterGroup{prefix: group.prefix + prefix, router: group.router}` and
returns it. Neither `engine` nor `engine.groups` is touched. -/
def RouterGroup.Group (st : Store) (group : Ptr) (pfx : String) : Except String (Store × Ptr) :=
  match st.deref group with
  | .error e => .error e
  | .ok g =>
    let newGroup : RouterGroup :=
      { Handlers := [], pfx := g.pfx ++ pfx, middlewares := [], engine := false }
    .ok ({ st with objs := st.objs ++ [newGroup] }, st.objs.length)

/-- `func (group *RouterGroup) Use(middlewares ...HandlerFunc)`. -/
def RouterGroup.Use (st : Store) (group : Ptr) (middlewares : List HandlerFunc) :
    Except String Store :=
  match st.deref group with
  | .error e => .error e
  | .ok g =>
    .ok { st with objs := st.objs.set group { g with middlewares := g.middlewares ++ middlewares } }

/-- Modelled from the spec: `assert1` is called by `combineHandlers` and
declared outside these sources. The spec has the capacity ceiling "enforced at
combination time; exceeding it is a configuration error, fatal at setup time":
a false guard panics with the text, a true one returns. -/
def assert1 (guard : Bool) (text : String) : Except String Unit :=
  if guard then .ok () else .error text

/-- `func (group *RouterGroup) combineHandlers(handlers []HandlerFunc) []HandlerFunc`:
after the assertion, a fresh slice of `finalSize` receives `group.Handlers`
and then `handlers`. -/
def RouterGroup.combineHandlers (group : RouterGroup) (handlers : List HandlerFunc) :
    Except String (List HandlerFunc) :=
  let finalSize := group.Handlers.length + handlers.length
  match assert1 (decide (finalSize < abortIndex)) "too many handlers" with
  | .error e => .error e
  | .ok () => .ok (group.Handlers ++ handlers)

/-- `func (engine *Engine) rebuild404Handlers()`. -/
def Engine.rebuild404Handlers (st : Store) : Except String Store :=
  match st.deref st.engine.RouterGroup with
  | .error e => .error e
  | .ok root =>
    match root.combineHandlers st.engine.noRoute with
    | .error e => .error e
    | .ok hs => .ok { st with engine := { st.engine with allNoRoute := hs } }

/-- `func (engine *Engine) rebuild405Handlers()`. -/
def Engine.rebuild405Handlers (st : Store) : Except String Store :=
  match st.deref st.engine.RouterGroup with
  | .error e => .error e
  | .ok root =>
    match root.combineHandlers st.engine.noMethod with
    | .error e => .error e
    | .ok hs => .ok { st with engine := { st.engine with allNoMethod := hs } }

/-- `func (engine *Engine) NoRoute(handlers ...HandlerFunc)`. -/
def Engine.NoRoute (st : Store) (handlers : List HandlerFunc) : Except String Store :=
  Engine.rebuild404Handlers { st with engine := { st.engine with noRoute := handlers } }

/-- `func (engine *Engine) NoMethod(handlers ...HandlerFunc)`. -/
def Engine.NoMethod (st : Store) (handlers : List HandlerFunc) : Except String Store :=
  Engine.rebuild405Handlers { st with engine := { st.engine with noMethod := handlers } }

/-- `func (engine *Engine) Use(middleware ...HandlerFunc)`: the root group's
`Use`, then both rebuilds. -/
def Engine.Use (st : Store) (middleware : List HandlerFunc) : Except String Store :=
  match RouterGroup.Use st st.engine.RouterGroup middleware with
  | .error e => .error e
  | .ok st1 =>
    match Engine.rebuild404Handlers st1 with
    | .error e => .error e
    | .ok st2 => Engine.rebuild405Handlers st2

/-- `strings.HasPrefix(s, prefix)`:
`len(s) >= len(prefix) && s[:len(prefix)] == prefix`. Strings are taken as
lists of characters; on well-formed UTF-8 this is the same test as on bytes. -/
def HasPrefix (s pfx : String) : Bool :=
  decide (pfx.data.length ≤ s.data.length) && (s.data.take pfx.data.length == pfx.data)

/-- The `for _, group := range engine.groups` loop of `handleMidderwares`,
with the slice `middlewares` built so far. -/
def scanGroups (st : Store) (path : String) :
    List Ptr → List HandlerFunc → Except String (List HandlerFunc)
  | [], middlewares => .ok middlewares
  | p :: rest, middlewares =>
    match st.deref p with
    | .error e => .error e
    | .ok group =>
      if HasPrefix path group.pfx then
        scanGroups st path rest (middlewares ++ group.middlewares)
      else scanGroups st path rest middlewares

/-- `func (engine *Engine) handleMidderwares(req *http.Request) []HandlerFunc`
for a request with path `path`: the scan, then `engine.middlewares = middlewares`
(a write to the root group), then the result. -/
def Engine.handleMidderwares (st : Store) (path : String) :
    Except String (Store × List HandlerFunc) :=
  match scanGroups st path st.engine.groups [] with
  | .error e => .error e
  | .ok middlewares =>
    match st.deref st.engine.RouterGroup with
    | .error e => .error e
    | .ok root =>
      .ok ({ st with objs := st.objs.set st.engine.RouterGroup
                        { root with middlewares := middlewares } }, middlewares)

/-- `func (group *RouterGroup) createStaticHandler(relativePath, fs) HandlerFunc`:
the closure over `group` and `fs`. The absolute path only configures the file
server that answers when the file opens. -/
def RouterGroup.createStaticHandler (group : Ptr) (_relativePath : String)
    (fs : List String) : HandlerFunc :=
  .staticHandler group fs

/-! ## Pipelines of the onion shape -/

/-- A middleware: its `before` work, then `c.Next()`, then its `after` work. -/
def middleware (before after : List String) : HandlerFunc :=
  .code (before.map Stmt.emit ++ Stmt.next :: after.map Stmt.emit)

/-- A handler that does its work and returns without calling `Next`. -/
def terminal (work : List String) : HandlerFunc :=
  .code (work.map Stmt.emit)

/-- A pipeline in which every handler but possibly the last is a middleware:
`mids` gives the (before, after) work of the middlewares, `last` the work of
a final handler that does not call `Next`, when there is one. -/
def onionPipeline (mids : List (List String × List String)) (last : Option (List String)) :
    List HandlerFunc :=
  mids.map (fun p => middleware p.1 p.2) ++ (last.map terminal).toList

/-- The context `ServeHTTP` builds for a request: `newContext`, then
`c.handlers = handlers`. -/
def pipelineContext (path method : String) (handlers : List HandlerFunc) : Context :=
  { newContext path method with handlers := handlers }

/-- The way in: from position `k` on, each handler is invoked and does its
`before` work, in pipeline order. -/
def wayIn : Nat → List (List String) → List Event
  | _, [] => []
  | k, b :: rest => Event.invoke k :: b.map Event.emit ++ wayIn (k + 1) rest

/-- The way out: the `after` work, last middleware first. -/
def wayOut : List (List String) → List Event
  | [] => []
  | a :: rest => wayOut rest ++ a.map Event.emit

/-- The index of the handler an event says was invoked. -/
def Event.invoked : Event → Option Int
  | .invoke i => some i
  | _ => none

/-! ## Properties of a response -/

/-- What was written holds a call of `Fail`: its JSON error body. -/
def Failed (w : List Event) : Prop :=
  ∃ code message, Event.json code message ∈ w

/-- No handler is invoked after a call of `Fail`: whatever follows a JSON
error body in the response holds no `invoke`. -/
def NoInvokeAfterFail (w : List Event) : Prop :=
  ∀ pre post code message, w = pre ++ Event.json code message :: post →
    ∀ i, Event.invoke i ∉ post

/-- What the cursor protocol keeps true of a context under the unbounded
cursor: no handler was invoked after a `Fail`, and once `Fail` was called the
cursor is at or past the end of the handler list. -/
def Aborts (c : Context) : Prop :=
  NoInvokeAfterFail c.Writer ∧ (Failed c.Writer → (c.handlers.length : Int) ≤ c.index)

/-- The path holds two separators in a row. -/
def hasDoubleSlash : List Char → Bool
  | [] => false
  | a :: rest => (a == '/' && rest.head? == some '/') || hasDoubleSlash rest

/-- Every pointer the engine holds points to an allocated group. -/
def Store.WellFormed (st : Store) : Prop :=
  st.engine.RouterGroup < st.objs.length ∧ ∀ p ∈ st.engine.groups, p < st.objs.length

/-- The groups the engine's group list points to, in list order. -/
def Store.groupList (st : Store) : List RouterGroup :=
  st.engine.groups.filterMap st.objs.get?

/-! # Theorems -/

theorem toCursor_fits (m : CursorModel) (z : Int)
    (h : m = .unbounded ∨ (-128 ≤ z ∧ z ≤ 127)) : toCursor m z = z := by
  cases m with
  | unbounded => rfl
  | int8 =>
    rcases h with h | ⟨h1, h2⟩
    · cases h
    · simp only [toCursor]; omega

theorem execBody_emits (m : CursorModel) (nf : Context → Outcome) (tags : List String)
    (rest : List Stmt) (c : Context) :
    execBody m nf (tags.map Stmt.emit ++ rest) c
      = execBody m nf rest { c with Writer := c.Writer ++ tags.map Event.emit } := by
  induction tags generalizing c with
  | nil => simp
  | cons t ts ih =>
    show execBody m nf (Stmt.emit t :: (ts.map Stmt.emit ++ rest)) c = _
    rw [execBody, ih]
    simp [Context.write, List.append_assoc]

theorem execBody_emits_only (m : CursorModel) (nf : Context → Outcome) (tags : List String)
    (c : Context) :
    execBody m nf (tags.map Stmt.emit) c
      = .done { c with Writer := c.Writer ++ tags.map Event.emit } := by
  have h := execBody_emits m nf tags [] c
  simpa [execBody] using h


/-- One turn of the loop of `Next` at a position inside the handler list. -/
theorem nextLoop_step (m : CursorModel) (st : Store) (f k : Nat) (h : HandlerFunc) (c : Context)
    (hi : c.index = k) (hk : c.handlers.get? k = some h) (hlt : k < c.handlers.length)
    (hlen : toCursor m c.handlers.length = c.handlers.length) :
    nextLoop m st (f + 1) c
      = match callHandler m st (fun c1 => nextLoop m st f (c1.incr m)) h
            (c.write (.invoke k)) with
        | .done c1 => nextLoop m st f ((c1.incr m).incr m)
        | .fault e c1 => .fault e c1 := by
  have hat : c.handlerAt = some h := by
    rw [Context.handlerAt, hi, if_pos (by omega)]; simpa using hk
  have hc : c.index < toCursor m c.handlers.length := by rw [hlen, hi]; exact_mod_cast hlt
  rw [nextLoop, if_pos hc, hat, hi]

/-- The loop of `Next` returns at once when the cursor is at or past the end. -/
theorem nextLoop_exit (m : CursorModel) (st : Store) (f : Nat) (c : Context)
    (hge : (c.handlers.length : Int) ≤ c.index)
    (hlen : toCursor m c.handlers.length = c.handlers.length) :
    nextLoop m st (f + 1) c = .done c := by
  have hc : ¬ c.index < toCursor m c.handlers.length := by rw [hlen]; omega
  rw [nextLoop, if_neg hc]

/-- The run of `Next` over the tail of an onion pipeline: the cursor stands
just before the tail (`pre` has been entered), the tail is entered in order and
left in reverse order, and the cursor ends at or past the pipeline length. -/
theorem next_onion_tail (m : CursorModel) (st : Store) (last : Option (List String))
    (mids : List (List String × List String)) :
    ∀ (pre : List HandlerFunc) (c : Context) (fuel : Nat),
      c.handlers = pre ++ onionPipeline mids last →
      c.index = (pre.length : Int) - 1 →
      (onionPipeline mids last).length < fuel →
      (m = .unbounded ∨ pre.length + 3 * (onionPipeline mids last).length ≤ 127) →
      ∃ i : Int, (c.handlers.length : Int) ≤ i ∧
        i ≤ c.handlers.length + 2 * (onionPipeline mids last).length ∧
        c.Next m st fuel
          = .done { c with
              Writer := c.Writer ++ wayIn pre.length (mids.map (·.1) ++ last.toList)
                          ++ wayOut (mids.map (·.2)),
              index := i } := by
  induction mids with
  | nil =>
    intro pre c fuel hh hi hf hfit
    obtain ⟨f, rfl⟩ : ∃ f, fuel = f + 1 := ⟨fuel - 1, by omega⟩
    have fits : ∀ z : Int, -128 ≤ z → z ≤ pre.length + 3 * (onionPipeline [] last).length →
        toCursor m z = z := by
      intro z h1 h2
      apply toCursor_fits; rcases hfit with h | h
      · exact Or.inl h
      · right; omega
    have e1 : toCursor m (c.index + 1) = pre.length := by
      rw [hi]; simp only [sub_add_cancel]
      exact fits _ (by omega) (by omega)
    cases last with
    | none =>
      have hlen : c.handlers.length = pre.length := by simp [hh, onionPipeline]
      have e2 : toCursor m (c.handlers.length : Int) = c.handlers.length :=
        fits _ (by omega) (by rw [hlen]; omega)
      refine ⟨pre.length, ?_, ?_, ?_⟩
      · simp [hh, onionPipeline]
      · simp [hh, onionPipeline]
      · rw [Context.Next, nextLoop_exit m st f _ (by simp [Context.incr, e1, hlen])
          (by simpa [Context.incr] using e2)]
        simp [Context.incr, e1, wayIn, wayOut]
    | some w =>
      have hplen : (onionPipeline [] (some w)).length = 1 := by simp [onionPipeline]
      rw [hplen] at hf fits
      have hlen : c.handlers.length = pre.length + 1 := by simp [hh, onionPipeline]
      have e2 : toCursor m (c.handlers.length : Int) = c.handlers.length :=
        fits _ (by omega) (by rw [hlen]; push_cast; omega)
      have hget : c.handlers.get? pre.length = some (terminal w) := by
        simp [hh, onionPipeline]
      obtain ⟨g, rfl⟩ : ∃ g, f = g + 1 := ⟨f - 1, by omega⟩
      refine ⟨pre.length + 2, ?_, ?_, ?_⟩
      · rw [hlen]; push_cast; omega
      · rw [hlen, hplen]; push_cast; omega
      · rw [Context.Next, nextLoop_step m st (g + 1) pre.length (terminal w) _
          (by simp [Context.incr, e1]) (by simpa [Context.incr] using hget)
          (by simp [Context.incr, hlen]) (by simpa [Context.incr] using e2)]
        simp only [callHandler, terminal, execBody_emits_only]
        have e3 : toCursor m ((pre.length : Int) + 1) = pre.length + 1 :=
          fits _ (by omega) (by omega)
        have e4 : toCursor m ((pre.length : Int) + 1 + 1) = pre.length + 1 + 1 :=
          fits _ (by omega) (by omega)
        have e5 : toCursor m ((pre.length : Int) + 2) = pre.length + 2 :=
          fits _ (by omega) (by omega)
        rw [nextLoop_exit m st g _ (by simp [Context.incr, Context.write, e1, e3, e4, hlen])
          (by simpa [Context.incr, Context.write] using e2)]
        simp [Context.incr, Context.write, e1, e3, e4, e5, wayIn, wayOut, add_assoc]
  | cons p rest ih =>
    intro pre c fuel hh hi hf hfit
    obtain ⟨b, a⟩ := p
    have hpipe : onionPipeline ((b, a) :: rest) last
        = middleware b a :: onionPipeline rest last := by simp [onionPipeline]
    rw [hpipe] at hh hf hfit ⊢
    simp only [List.length_cons] at hf hfit ⊢
    obtain ⟨f, rfl⟩ : ∃ f, fuel = f + 1 := ⟨fuel - 1, by omega⟩
    have hlen : c.handlers.length = pre.length + ((onionPipeline rest last).length + 1) := by
      simp [hh]
    have fits : ∀ z : Int, -128 ≤ z →
        z ≤ pre.length + 3 * ((onionPipeline rest last).length + 1) → toCursor m z = z := by
      intro z h1 h2
      apply toCursor_fits; rcases hfit with h | h
      · exact Or.inl h
      · right; omega
    have e1 : toCursor m (c.index + 1) = pre.length := by
      rw [hi]; simp only [sub_add_cancel]
      exact fits _ (by omega) (by omega)
    have e2 : toCursor m (c.handlers.length : Int) = c.handlers.length :=
      fits _ (by omega) (by rw [hlen]; push_cast; omega)
    have hget : c.handlers[pre.length]? = some (middleware b a) := by
      rw [hh, List.getElem?_append_right (le_refl _)]; simp
    -- the nested call of `Next` made by the middleware
    obtain ⟨c2, hc2⟩ : ∃ c2 : Context, c2 =
        { (c.incr m).write (.invoke pre.length) with
          Writer := ((c.incr m).write (.invoke pre.length)).Writer ++ b.map Event.emit } :=
      ⟨_, rfl⟩
    have hc2h : c2.handlers = c.handlers := by simp [hc2, Context.incr, Context.write]
    have hc2i : c2.index = pre.length := by simp [hc2, Context.incr, Context.write, e1]
    obtain ⟨i, hi1, hi2, hrun⟩ := ih (pre ++ [middleware b a]) c2 f
      (by rw [hc2h, hh]; simp) (by rw [hc2i]; simp) (by omega)
      (by rcases hfit with h | h
          · exact Or.inl h
          · right; simp only [List.length_append, List.length_singleton]; omega)
    rw [hc2h] at hi1 hi2
    have e3 : toCursor m (i + 1) = i + 1 := fits _ (by omega) (by omega)
    have e4 : toCursor m (i + 1 + 1) = i + 1 + 1 := fits _ (by omega) (by omega)
    refine ⟨i + 1 + 1, by omega, by push_cast; omega, ?_⟩
    rw [Context.Next, nextLoop_step m st f pre.length (middleware b a) _
      (by simp [Context.incr, e1]) (by simpa [Context.incr] using hget)
      (by simp [Context.incr, hlen]) (by simpa [Context.incr] using e2)]
    have hcall : callHandler m st (fun c1 => nextLoop m st f (c1.incr m)) (middleware b a)
        ((c.incr m).write (.invoke pre.length))
        = .done { c2 with
            Writer := c2.Writer ++ wayIn (pre ++ [middleware b a]).length
                        (rest.map (·.1) ++ last.toList) ++ wayOut (rest.map (·.2))
                        ++ a.map Event.emit,
            index := i } := by
      simp only [callHandler, middleware]
      rw [execBody_emits, ← hc2, execBody]
      show (match Context.Next m st f c2 with
            | .done c1 => execBody m _ (a.map Stmt.emit) c1
            | .fault e c1 => .fault e c1) = _
      rw [hrun]
      simp only [execBody_emits_only]
      rfl
    rw [hcall]
    simp only
    obtain ⟨g, rfl⟩ : ∃ g, f = g + 1 := ⟨f - 1, by omega⟩
    rw [nextLoop_exit m st g _ (by simp [Context.incr, e3, e4, hc2h]; omega)
      (by simpa [Context.incr, hc2h] using e2)]
    simp [hc2, Context.incr, Context.write, e1, e3, e4, wayIn, wayOut, List.append_assoc]

theorem invoked_emits (tags : List String) :
    (tags.map Event.emit).filterMap Event.invoked = [] := by
  induction tags with
  | nil => rfl
  | cons t ts ih => simp [Event.invoked]

theorem invoked_wayOut (afters : List (List String)) :
    (wayOut afters).filterMap Event.invoked = [] := by
  induction afters with
  | nil => rfl
  | cons a rest ih => rw [wayOut, List.filterMap_append, ih, invoked_emits]; rfl

theorem invoked_wayIn (k : Nat) (befores : List (List String)) :
    (wayIn k befores).filterMap Event.invoked
      = (List.range' k befores.length).map (fun n : Nat => (n : Int)) := by
  induction befores generalizing k with
  | nil => rfl
  | cons b rest ih =>
    rw [wayIn, List.cons_append, List.filterMap_cons, List.filterMap_append, invoked_emits, ih]
    simp [Event.invoked, List.range'_succ]

theorem onionPipeline_length (mids : List (List String × List String))
    (last : Option (List String)) :
    (mids.map (·.1) ++ last.toList).length = (onionPipeline mids last).length := by
  cases last <;> simp [onionPipeline]

/-- C1. Onion ordering of `Context.Next`. In a pipeline in which every handler
but possibly the last calls `Next` exactly once, between its `before` and its
`after` work, one call of `Next` from cursor `-1` returns, having invoked the
handlers `0 .. N-1` once each in that order, each doing its `before` work on
the way in, and then the `after` work in the reverse order `N-1 .. 0`. This
holds with the cursor taken without overflow, and for the `int8` cursor of the
source as long as `3 * N ≤ 127`. -/
theorem next_onion_order (m : CursorModel) (st : Store)
    (path method : String)
    (mids : List (List String × List String)) (last : Option (List String)) (extra : Nat)
    (hm : m = .unbounded ∨ 3 * (onionPipeline mids last).length ≤ 127) :
    ∃ i : Int, ((onionPipeline mids last).length : Int) ≤ i ∧
      (pipelineContext path method (onionPipeline mids last)).Next m st
          ((onionPipeline mids last).length + 1 + extra)
        = .done { pipelineContext path method (onionPipeline mids last) with
            Writer := wayIn 0 (mids.map (·.1) ++ last.toList) ++ wayOut (mids.map (·.2)),
            index := i } ∧
      (wayIn 0 (mids.map (·.1) ++ last.toList) ++ wayOut (mids.map (·.2))).filterMap Event.invoked
        = (List.range (onionPipeline mids last).length).map (fun n : Nat => (n : Int)) := by
  obtain ⟨i, h1, _, h3⟩ := next_onion_tail m st last mids []
    (pipelineContext path method (onionPipeline mids last))
    ((onionPipeline mids last).length + 1 + extra) (by simp [pipelineContext])
    (by simp [pipelineContext, newContext]) (by omega)
    (by rcases hm with h | h
        · exact Or.inl h
        · right; simpa using h)
  refine ⟨i, ?_, ?_, ?_⟩
  · simpa [pipelineContext] using h1
  · simpa [pipelineContext, newContext] using h3
  · rw [List.filterMap_append, invoked_wayOut, invoked_wayIn, onionPipeline_length,
      List.append_nil, List.range_eq_range']

/-- The pipeline `[A, B, H]` gives A-before, B-before, H, B-after, A-after. -/
theorem next_onion_order_witness :
    ((pipelineContext "/" "GET" [middleware ["A-before"] ["A-after"],
        middleware ["B-before"] ["B-after"], terminal ["H"]]).Next .int8 New 4).ctx.Writer
      = [.invoke 0, .emit "A-before", .invoke 1, .emit "B-before", .invoke 2, .emit "H",
         .emit "B-after", .emit "A-after"] := by
  obtain ⟨i, _, h, _⟩ := next_onion_order .int8 New "/" "GET"
    [(["A-before"], ["A-after"]), (["B-before"], ["B-after"])] (some ["H"]) 0
    (Or.inr (by decide))
  have h' : (pipelineContext "/" "GET" [middleware ["A-before"] ["A-after"],
      middleware ["B-before"] ["B-after"], terminal ["H"]]).Next .int8 New 4 = _ := h
  rw [h']
  rfl

/-! ## Abort -/

theorem failed_append_singleton (w : List Event) (e : Event) (he : ∀ code message, e ≠ .json code message) :
    Failed (w ++ [e]) → Failed w := by
  rintro ⟨code, message, h⟩
  rcases List.mem_append.mp h with h | h
  · exact ⟨code, message, h⟩
  · exact absurd (List.mem_singleton.mp h).symm (he code message)

/-- Writing anything but an `invoke` keeps `NoInvokeAfterFail`. -/
theorem noInvoke_write (w : List Event) (e : Event) (he : ∀ i, e ≠ .invoke i)
    (h : NoInvokeAfterFail w) : NoInvokeAfterFail (w ++ [e]) := by
  intro pre post code message heq i hmem
  rcases List.eq_nil_or_concat post with hp | ⟨L, b, hp⟩
  · subst hp; simp at hmem
  · rw [List.concat_eq_append] at hp
    subst hp
    have heq' : w ++ [e] = (pre ++ Event.json code message :: L) ++ [b] := by
      rw [heq]; simp
    obtain ⟨hw, hb⟩ := List.append_inj' heq' rfl
    rcases List.mem_append.mp hmem with hm | hm
    · exact h pre L code message hw i hm
    · have : b = Event.invoke i := (List.mem_singleton.mp hm).symm
      have hb' : e = b := by simpa using hb
      exact he i (hb'.trans this)

/-- Recording an invocation keeps `NoInvokeAfterFail` when `Fail` was not called. -/
theorem noInvoke_invoke (w : List Event) (i : Int) (h : ¬ Failed w) :
    NoInvokeAfterFail (w ++ [.invoke i]) := by
  intro pre post code message heq j _
  apply h
  refine ⟨code, message, ?_⟩
  have hmem : Event.json code message ∈ w ++ [Event.invoke i] := by
    rw [heq]; simp
  rcases List.mem_append.mp hmem with hm | hm
  · exact hm
  · simp at hm

theorem aborts_write (c : Context) (e : Event) (h1 : ∀ i, e ≠ .invoke i)
    (h2 : ∀ code message, e ≠ .json code message) (h : Aborts c) : Aborts (c.write e) := by
  refine ⟨noInvoke_write _ _ h1 h.1, fun hf => ?_⟩
  exact h.2 (failed_append_singleton _ _ h2 hf)

theorem aborts_incr (c : Context) (h : Aborts c) : Aborts (c.incr .unbounded) := by
  refine ⟨h.1, fun hf => ?_⟩
  have := h.2 hf
  simp only [Context.incr, toCursor]
  omega

theorem aborts_Fail (c : Context) (code : Int) (err : String) (h : Aborts c) :
    Aborts (c.Fail .unbounded code err) := by
  refine ⟨noInvoke_write _ _ (by intro i; simp) h.1, fun _ => ?_⟩
  simp [Context.Fail, Context.JSON, Context.write, toCursor]

theorem aborts_execBody (nf : Context → Outcome) (hnf : ∀ c, Aborts c → Aborts (nf c).ctx)
    (body : List Stmt) : ∀ c, Aborts c → Aborts (execBody .unbounded nf body c).ctx := by
  induction body with
  | nil => intro c h; exact h
  | cons s rest ih =>
    intro c h
    cases s with
    | emit tag =>
      rw [execBody]
      exact ih _ (aborts_write c _ (by intro i; simp) (by intro a b; simp) h)
    | next =>
      rw [execBody]
      have hn := hnf c h
      cases hr : nf c with
      | done c1 => rw [hr] at hn; exact ih _ hn
      | fault f c1 => rw [hr] at hn; exact hn
    | fail code err =>
      rw [execBody]
      exact ih _ (aborts_Fail c code err h)

theorem aborts_runStatic (st : Store) (group : Ptr) (fs : List String) (c : Context)
    (h : Aborts c) (hf : ¬ Failed c.Writer) : Aborts (runStatic st group fs c).ctx := by
  have hw : ∀ e : Event, (∀ i, e ≠ .invoke i) → (∀ a b, e ≠ .json a b) →
      ∀ c' : Context, c'.Writer = c.Writer ++ [e] → Aborts c' := by
    intro e h1 h2 c' hc'
    refine ⟨?_, fun hf' => ?_⟩
    · rw [hc']; exact noInvoke_write _ _ h1 h.1
    · rw [hc'] at hf'; exact absurd (failed_append_singleton _ _ h2 hf') hf
  unfold runStatic
  simp only
  split
  · exact hw (.serveFile (c.Param "filepath")) (by intro i; simp) (by intro a b; simp) _
      (by simp [Outcome.ctx, Context.write])
  · split
    · exact hw (.writeHeader 404) (by intro i; simp) (by intro a b; simp) _
        (by simp [Outcome.ctx, Context.write, Context.Status])
    · split
      · exact hw (.writeHeader 404) (by intro i; simp) (by intro a b; simp) _
          (by simp [Outcome.ctx, Context.write, Context.Status])
      · exact hw (.writeHeader 404) (by intro i; simp) (by intro a b; simp) _
          (by simp [Outcome.ctx, Context.write, Context.Status])

theorem aborts_nextLoop (st : Store) (fuel : Nat) :
    ∀ c, Aborts c → Aborts (nextLoop .unbounded st fuel c).ctx := by
  induction fuel with
  | zero => intro c h; exact h
  | succ f ih =>
    intro c h
    rw [nextLoop]
    split
    · rename_i hlt
      have hnf : ¬ Failed c.Writer := by
        intro hf
        have := h.2 hf
        simp only [toCursor] at hlt
        omega
      cases hat : c.handlerAt with
      | none => exact h
      | some hd =>
        simp only
        have hc1 : Aborts (c.write (.invoke c.index)) :=
          ⟨noInvoke_invoke _ _ hnf, fun hf' =>
            absurd (failed_append_singleton _ _ (by intro a b; simp) hf') hnf⟩
        have hnf1 : ¬ Failed (c.write (.invoke c.index)).Writer := fun hf' =>
          hnf (failed_append_singleton _ _ (by intro a b; simp) hf')
        have hcall : Aborts (callHandler .unbounded st
            (fun c1 => nextLoop .unbounded st f (c1.incr .unbounded)) hd
            (c.write (.invoke c.index))).ctx := by
          cases hd with
          | code body =>
            exact aborts_execBody _ (fun c1 h1 => ih _ (aborts_incr c1 h1)) body _ hc1
          | staticHandler g fs => exact aborts_runStatic st g fs _ hc1 hnf1
        cases hr : callHandler .unbounded st
            (fun c1 => nextLoop .unbounded st f (c1.incr .unbounded)) hd
            (c.write (.invoke c.index)) with
        | done c1 =>
          rw [hr] at hcall
          exact ih _ (aborts_incr _ (aborts_incr _ hcall))
        | fault e c1 => rw [hr] at hcall; exact hcall
    · exact h

/-- C2. Abort. `Fail` sets the cursor to the pipeline length `N`, and in a run
of `Next` from cursor `-1` over any pipeline, stopped at any point, no handler
is invoked after a call of `Fail`, whichever handler made the call and at
whatever depth of nested `Next` calls: in particular none of the handlers
`k+1 .. N-1` that follow the failing handler `k` (cursor taken without
overflow). -/
theorem fail_stops_pipeline (st : Store) (path method : String)
    (handlers : List HandlerFunc) (fuel : Nat) :
    (∀ (c : Context) (code : Int) (err : String),
        (c.Fail .unbounded code err).index = c.handlers.length) ∧
    NoInvokeAfterFail ((pipelineContext path method handlers).Next .unbounded st fuel).ctx.Writer := by
  refine ⟨fun c code err => by simp [Context.Fail, Context.JSON, Context.write, toCursor], ?_⟩
  have h0 : Aborts (pipelineContext path method handlers) := by
    refine ⟨?_, ?_⟩
    · intro pre post code message heq
      have : ([] : List Event) = pre ++ Event.json code message :: post := heq
      simp at this
    · rintro ⟨code, message, h⟩
      simp [pipelineContext, newContext] at h
  exact (aborts_nextLoop st fuel _ (aborts_incr _ h0)).1

/-- Handler 1 of four calls `Fail`: handlers 2 and 3 are never invoked, and
the `after` work of handler 0 still runs. -/
theorem fail_stops_pipeline_witness :
    ((pipelineContext "/" "GET" [middleware ["A-before"] ["A-after"],
        .code [.emit "B", .fail 500 "boom"], terminal ["C"], terminal ["D"]]).Next
        .unbounded New 5).ctx.Writer
      = [.invoke 0, .emit "A-before", .invoke 1, .emit "B", .json 500 "boom", .emit "A-after"] ∧
    NoInvokeAfterFail
      [.invoke 0, .emit "A-before", .invoke 1, .emit "B", .json 500 "boom", .emit "A-after"] := by
  have hrun : ((pipelineContext "/" "GET" [middleware ["A-before"] ["A-after"],
      .code [.emit "B", .fail 500 "boom"], terminal ["C"], terminal ["D"]]).Next
      .unbounded New 5).ctx.Writer
      = [.invoke 0, .emit "A-before", .invoke 1, .emit "B", .json 500 "boom",
         .emit "A-after"] := by decide
  refine ⟨hrun, ?_⟩
  rw [← hrun]
  exact (fail_stops_pipeline New "/" "GET" _ 5).2

/-! ## Middleware selection -/

theorem hasPrefix_iff (s p : String) : HasPrefix s p = true ↔ ∃ t : String, s = p ++ t := by
  simp only [HasPrefix, Bool.and_eq_true, decide_eq_true_eq, beq_iff_eq]
  constructor
  · rintro ⟨_, h⟩
    refine ⟨⟨s.data.drop p.data.length⟩, ?_⟩
    apply String.ext
    rw [String.data_append]
    conv_lhs => rw [← List.take_append_drop p.data.length s.data]
    rw [h]
  · rintro ⟨t, rfl⟩
    simp [String.data_append]

theorem deref_of_lt (st : Store) (p : Ptr) (h : p < st.objs.length) :
    st.deref p = .ok (st.objs.get ⟨p, h⟩) ∧ st.objs.get? p = some (st.objs.get ⟨p, h⟩) := by
  have : st.objs.get? p = some (st.objs.get ⟨p, h⟩) := List.get?_eq_get h
  exact ⟨by rw [Store.deref, this], this⟩

theorem scanGroups_eq (st : Store) (path : String) :
    ∀ (ps : List Ptr) (acc : List HandlerFunc), (∀ p ∈ ps, p < st.objs.length) →
      scanGroups st path ps acc
        = .ok (acc ++ (((ps.filterMap st.objs.get?).filter
            (fun g => HasPrefix path g.pfx)).map (·.middlewares)).flatten) := by
  intro ps
  induction ps with
  | nil => intro acc _; simp [scanGroups]
  | cons p rest ih =>
    intro acc hv
    obtain ⟨hd, hg⟩ := deref_of_lt st p (hv p (List.mem_cons_self _ _))
    have hrest : ∀ q ∈ rest, q < st.objs.length := fun q hq => hv q (List.mem_cons_of_mem _ hq)
    rw [scanGroups, hd]
    simp only
    rw [List.filterMap_cons, hg]
    simp only
    by_cases hp : HasPrefix path (st.objs.get ⟨p, hv p (List.mem_cons_self _ _)⟩).pfx = true
    · rw [if_pos hp, ih _ hrest, List.filter_cons, if_pos hp]
      simp [List.append_assoc]
    · rw [if_neg hp, ih _ hrest, List.filter_cons, if_neg hp]

/-- C6. Per-request middleware selection is pure prefix matching: on a
well-formed store `handleMidderwares` returns the middleware lists of the
groups of the engine's group list whose prefix is a string prefix of the
path, concatenated in list order; `HasPrefix` holds exactly of string
prefixes, so a group that does not prefix the path adds nothing and every
group that does adds its list. -/
theorem handleMidderwares_prefix_matching (st : Store) (path : String) (hwf : st.WellFormed) :
    (∃ st', Engine.handleMidderwares st path
        = .ok (st', ((st.groupList.filter (fun g => HasPrefix path g.pfx)).map
                      (·.middlewares)).flatten)) ∧
    (∀ s p : String, HasPrefix s p = true ↔ ∃ t : String, s = p ++ t) := by
  refine ⟨?_, hasPrefix_iff⟩
  obtain ⟨hroot, hgroups⟩ := hwf
  obtain ⟨hd, _⟩ := deref_of_lt st _ hroot
  rw [Engine.handleMidderwares, scanGroups_eq st path _ [] hgroups, hd]
  exact ⟨_, rfl⟩

/-- Root with `[R]`, then groups `/api` with `[A]`, `/web` with `[W]` and
`/ap` with `[P]`, all in the engine's list: the path `/api/x` selects
`[R, A, P]`; `/api` and `/ap` both contribute, `/web` does not. -/
theorem handleMidderwares_prefix_matching_witness :
    ∃ st', Engine.handleMidderwares
        { objs := [{ Handlers := [], pfx := "", middlewares := [.code [.emit "R"]], engine := true },
                   { Handlers := [], pfx := "/api", middlewares := [.code [.emit "A"]], engine := false },
                   { Handlers := [], pfx := "/web", middlewares := [.code [.emit "W"]], engine := false },
                   { Handlers := [], pfx := "/ap", middlewares := [.code [.emit "P"]], engine := false }],
          engine := { New.engine with groups := [0, 1, 2, 3] } } "/api/x"
      = .ok (st', [.code [.emit "R"], .code [.emit "A"], .code [.emit "P"]]) := by
  obtain ⟨st', h⟩ := (handleMidderwares_prefix_matching
    { objs := [{ Handlers := [], pfx := "", middlewares := [.code [.emit "R"]], engine := true },
               { Handlers := [], pfx := "/api", middlewares := [.code [.emit "A"]], engine := false },
               { Handlers := [], pfx := "/web", middlewares := [.code [.emit "W"]], engine := false },
               { Handlers := [], pfx := "/ap", middlewares := [.code [.emit "P"]], engine := false }],
      engine := { New.engine with groups := [0, 1, 2, 3] } } "/api/x"
    ⟨by decide, by decide⟩).1
  exact ⟨st', h⟩

/-! ## The capacity ceiling -/

/-- C8 fails on the code. From a group with prefix "/api/", `Group("/v1")`
gives the prefix "/api//v1", not "/api/v1": the separators are not collapsed,
and the result holds "//" although neither part does (`addRoute` and
`createStaticHandler` join the same prefix through `calculateAbsolutePath`). -/
theorem group_prefix_not_joined :
    ∃ st1 g1 st2 g2,
      RouterGroup.Group New New.engine.RouterGroup "/api/" = .ok (st1, g1) ∧
      (st1.objs.get? g1).map (·.pfx) = some "/api/" ∧
      RouterGroup.Group st1 g1 "/v1" = .ok (st2, g2) ∧
      (st2.objs.get? g2).map (·.pfx) = some "/api//v1" ∧
      (st2.objs.get? g2).map (·.pfx) ≠ some "/api/v1" ∧
      hasDoubleSlash "/api/".data = false ∧ hasDoubleSlash "/v1".data = false ∧
      hasDoubleSlash "/api//v1".data = true :=
  ⟨_, _, _, _, rfl, rfl, rfl, rfl, by decide, by decide, by decide, by decide⟩

/-- What `Group(r)` does on a group with prefix `p`: it allocates a new group
whose prefix is `p` followed by `r`, character for character, with no
middleware and no engine pointer, and returns it; nothing else changes. -/
theorem group_prefix_concat (st : Store) (g : Ptr) (r : String) (parent : RouterGroup)
    (h : st.deref g = .ok parent) :
    RouterGroup.Group st g r
        = .ok ({ st with objs := st.objs ++
                  [{ Handlers := [], pfx := parent.pfx ++ r, middlewares := [], engine := false }] },
               st.objs.length) ∧
    (st.objs ++ [({ Handlers := [], pfx := parent.pfx ++ r, middlewares := [],
                    engine := false } : RouterGroup)]).get? st.objs.length
      = some { Handlers := [], pfx := parent.pfx ++ r, middlewares := [], engine := false } := by
  constructor
  · rw [RouterGroup.Group, h]
  · simp

/-- From the root group, `Group("/api/")` has prefix "/api/". -/
theorem group_prefix_concat_witness :
    ∃ st', RouterGroup.Group New 0 "/api/" = .ok (st', 1) ∧
      (st'.objs.get? 1).map (·.pfx) = some "/api/" :=
  ⟨_, (group_prefix_concat New 0 "/api/"
        { Handlers := [], pfx := "", middlewares := [], engine := true } rfl).1, rfl⟩

/-- C3 fails on the code. After `engine.Use(A)`, `g := engine.Group("/api")`
and `g.Use(B)`, the engine's group list still holds the root only, and the
middleware selected for the path "/api/x" is `[A]`: `B` is not in it. -/
theorem group_middleware_not_selected (A B : HandlerFunc) :
    ∃ st1 st2 g st3 st4,
      Engine.Use New [A] = .ok st1 ∧
      RouterGroup.Group st1 st1.engine.RouterGroup "/api" = .ok (st2, g) ∧
      RouterGroup.Use st2 g [B] = .ok st3 ∧
      (st3.objs.get? g).map (fun grp => (grp.pfx, grp.middlewares)) = some ("/api", [B]) ∧
      HasPrefix "/api/x" "/api" = true ∧
      st3.engine.groups = [st3.engine.RouterGroup] ∧
      Engine.handleMidderwares st3 "/api/x" = .ok (st4, [A]) :=
  ⟨_, _, _, _, _, rfl, rfl, rfl, rfl, by decide, rfl, rfl⟩

/-- C5 fails on the code. After `Use(m)` and `NoRoute(h)` the cached chain
`allNoRoute` is `[h]`, and after `NoMethod(h)` the chain `allNoMethod` is
`[h]`: the global middleware `m` is in neither (it is kept in `middlewares`,
and the chains are built from `Handlers`, which stays empty). -/
theorem fallback_chain_without_middleware (m h : HandlerFunc) :
    ∃ st1 st2 st3,
      Engine.Use New [m] = .ok st1 ∧
      Engine.NoRoute st1 [h] = .ok st2 ∧
      Engine.NoMethod st2 [h] = .ok st3 ∧
      (st3.objs.get? st3.engine.RouterGroup).map (·.middlewares) = some [m] ∧
      st3.engine.allNoRoute = [h] ∧ st3.engine.allNoMethod = [h] ∧
      st3.engine.allNoRoute ≠ [m, h] ∧ st3.engine.allNoMethod ≠ [m, h] :=
  ⟨_, _, _, rfl, rfl, rfl, rfl, rfl, rfl, by simp, by simp⟩

/-! ## The double increment in the loop of `Next` -/

/-- C4 fails on the code. In the pipeline `[A, B, H]`, none of which calls
`Next`, one call of `Next` from cursor `-1` invokes `A` at 0 and `H` at 2 and
returns with the cursor at 4: `B` is skipped. -/
theorem next_skips_without_yield :
    (pipelineContext "/" "GET" [terminal ["A"], terminal ["B"], terminal ["H"]]).Next .int8 New 4
      = .done { pipelineContext "/" "GET" [terminal ["A"], terminal ["B"], terminal ["H"]] with
          Writer := [.invoke 0, .emit "A", .invoke 2, .emit "H"], index := 4 } := by
  decide

/-- C7 fails on the code. With `NoRoute(h)` configured and a file that does
not open, the static handler of the root group sets the handlers to `[h]` and
the cursor to `-1`; the loop of `Next` then moves the cursor to 1 and returns:
`h` is not invoked. -/
theorem static_miss_skips_first_noRoute :
    ∃ st, Engine.NoRoute New [.code [.emit "h"]] = .ok st ∧
      Context.Next .int8 st 4
          { pipelineContext "/" "GET"
              [RouterGroup.createStaticHandler st.engine.RouterGroup "/assets" []] with
            Params := [("filepath", "missing.css")] }
        = .done { pipelineContext "/" "GET" [.code [.emit "h"]] with
            Params := [("filepath", "missing.css")],
            Writer := [.invoke 0, .writeHeader 404], StatusCode := 404, index := 1 } :=
  ⟨_, rfl, by decide⟩

/-- C10 fails on the code. With 43 handlers, fewer than `abortIndex`, each
calling `Next` once, the `int8` cursor reaches 127 while the nested calls
return, wraps to a negative value, and the loop indexes the handler list at
`-127`: the run panics. -/
theorem next_cursor_wraps_below_ceiling :
    (43 : Nat) < abortIndex ∧
    (pipelineContext "/" "GET" (List.replicate 43 (middleware [] []))).Next .int8 New 44
      = .fault .indexOutOfRange
          { pipelineContext "/" "GET" (List.replicate 43 (middleware [] [])) with
            Writer := (List.range 43).map (fun n : Nat => Event.invoke n), index := -127 } := by
  refine ⟨by decide, ?_⟩
  decide

end Gee
